import Mathlib

/-!
Verification development for the dynamic-relation core of this repository.

Part 1 embeds `db/queries/base.py`: the `DBQuery` relation builder, the
`InitialColumn` and `JoinParams` data types, the join-nesting algorithm
(`_nest_a_join`, `_process_initial_column`, `_get_initial_relation`) and the
transformation pipeline stub (`_apply_transformations`).

Part 2 embeds `mathesar/utils/preview.py`: the preview resolver
(`get_preview_info`, `get_constrained_columns_by_referent_table`) together
with the string-level helpers it relies on (regex placeholder extraction and
Python-style string replacement), over a metadata environment that models the
external metadata collaborator described by the spec.
-/

set_option linter.unusedVariables false

/-- A SQLAlchemy `Table` handle: an opaque named relational object. -/
structure SATable where
  name : String
deriving DecidableEq

/-- A SQLAlchemy `Column` handle: belongs to one table, has a name. -/
structure SAColumn where
  table : SATable
  name : String
deriving DecidableEq

/-- `JoinParams`: the pair of columns on both sides of one equality join. -/
structure JoinParams where
  left_column : SAColumn
  right_column : SAColumn
deriving DecidableEq

def JoinParams.flip (jp : JoinParams) : JoinParams :=
  ⟨jp.right_column, jp.left_column⟩

def JoinParams.left_table (jp : JoinParams) : SATable :=
  jp.left_column.table

def JoinParams.right_table (jp : JoinParams) : SATable :=
  jp.right_column.table

/-- `InitialColumn`: a requested output column with an alias and an optional
join path from the base table.  The field `alias` of the source is spelled
`alias_` because `alias` is a reserved word in Lean. -/
structure InitialColumn where
  alias_ : String
  column : SAColumn
  jp_path : Option (List JoinParams)
deriving DecidableEq

def InitialColumn.is_base_column (c : InitialColumn) : Bool :=
  c.jp_path.isNone

/-- Python `str.strip`: drop leading and trailing whitespace. -/
def pyStrip (s : String) : String :=
  String.mk (((s.data.dropWhile Char.isWhitespace).reverse.dropWhile Char.isWhitespace).reverse)

/-- The error raised by a failed `assert` in the source constructors. -/
inductive ValidationError
  | assertionError
deriving DecidableEq

/-- `InitialColumn.__init__`: the only value-level validation performed is
`assert isinstance(alias, str) and alias.strip() != ""`; the remaining
asserts are type checks, enforced here by Lean's types.  No check of the
join path's shape is performed. -/
def InitialColumn.init (alias_ : String) (column : SAColumn)
    (jp_path : Option (List JoinParams)) : Except ValidationError InitialColumn :=
  if pyStrip alias_ = "" then Except.error ValidationError.assertionError
  else Except.ok ⟨alias_, column, jp_path⟩

/-- A reference to a column as it appears in a built query: either the plain
column object, or an attribute access on an aliased relation
(`_access_column_on_aliased_relation`), identified by the alias id and the
column name. -/
inductive ColumnRef
  | plain (c : SAColumn)
  | aliased (aliasId : Nat) (name : String)
deriving DecidableEq

/-- A FROM clause of a built query: a table, an aliased copy of a table
(`table.alias()`, with a fresh anonymous id), or a join of two clauses on an
equality of two column references. -/
inductive FromClause
  | table (t : SATable)
  | tableAlias (t : SATable) (aliasId : Nat)
  | joined (left : FromClause) (right : FromClause)
      (onLeft : ColumnRef) (onRight : ColumnRef)
deriving DecidableEq

/-- `col.label(alias)`: an output column of a select, carrying its label. -/
structure LabeledColumn where
  label : String
  expr : ColumnRef
deriving DecidableEq

/-- The built relation: `select(*columns).select_from(target).cte()`. -/
structure SelectStmt where
  columns : List LabeledColumn
  select_from : FromClause
deriving DecidableEq

/-- `_access_column_on_aliased_relation(aliased_relation, sa_column)`:
`getattr(aliased_relation.c, sa_column.name)`. -/
def access_column_on_aliased_relation (aliasId : Nat) (sa_column : SAColumn) : ColumnRef :=
  ColumnRef.aliased aliasId sa_column.name

/-- `_nest_a_join(nested_join, initial_column)`.  Walks `jp_path` in reverse;
the first processed (rightmost) hop aliases its right table with a fresh
anonymous alias (modelled by the counter `ctr`), and every later hop joins
the original left table to the accumulated tree.  The incoming `nested_join`
is overwritten on the first iteration, exactly as in the source, and is
therefore unused.  Returns `none` where the source would raise (no join
path, or an empty one: `rightmost_table_alias` stays `None` and the final
attribute access fails). -/
def nest_a_join (nested_join : Option FromClause) (initial_column : InitialColumn)
    (ctr : Nat) : Option (FromClause × ColumnRef × Nat) :=
  match initial_column.jp_path with
  | none => none
  | some jp_path =>
    match jp_path.reverse with
    | [] => none
    | jpLast :: restRev =>
      let aId := ctr
      let firstJoin := FromClause.joined (FromClause.table jpLast.left_table)
        (FromClause.tableAlias jpLast.right_table aId)
        (ColumnRef.plain jpLast.left_column)
        (access_column_on_aliased_relation aId jpLast.right_column)
      let finalJoin := restRev.foldl
        (fun nj jp => FromClause.joined (FromClause.table jp.left_table) nj
          (ColumnRef.plain jp.left_column) (ColumnRef.plain jp.right_column))
        firstJoin
      some (finalJoin, access_column_on_aliased_relation aId initial_column.column, ctr + 1)

/-- `_process_initial_column(initial_column, nested_join)`: a base column is
selected as-is; otherwise a join is nested.  In both cases the resolved
column expression is labeled with the requested alias. -/
def process_initial_column (initial_column : InitialColumn)
    (nested_join : Option FromClause) (ctr : Nat) :
    Option (Option FromClause × LabeledColumn × Nat) :=
  if initial_column.is_base_column then
    some (nested_join, ⟨initial_column.alias_, ColumnRef.plain initial_column.column⟩, ctr)
  else
    match nest_a_join nested_join initial_column ctr with
    | none => none
    | some (nj, colRef, c) => some (some nj, ⟨initial_column.alias_, colRef⟩, c)

/-- The per-column loop of `_get_initial_relation`, threading the nested
join, the selected columns so far, and the alias counter. -/
def get_initial_relation_go (base_table : SATable) :
    List InitialColumn → Option FromClause → List LabeledColumn → Nat → Option SelectStmt
  | [], nested_join, cols, _ =>
    some ⟨cols, nested_join.getD (FromClause.table base_table)⟩
  | ic :: rest, nested_join, cols, ctr =>
    match process_initial_column ic nested_join ctr with
    | none => none
    | some (nj, lc, c) => get_initial_relation_go base_table rest nj (cols ++ [lc]) c

/-- `_get_initial_relation(query)`: fold the initial columns, then select the
labeled columns from the accumulated join tree, or from the base table if no
column required a join. -/
def get_initial_relation (base_table : SATable) (initial_columns : List InitialColumn) :
    Option SelectStmt :=
  get_initial_relation_go base_table initial_columns none [] 0

/-- `_apply_transformations(initial_relation, transformations)`: the source
body is `return initial_relation` — the transformations argument is ignored. -/
def apply_transformations (initial_relation : SelectStmt)
    (transformations : List (SelectStmt → SelectStmt)) : SelectStmt :=
  initial_relation

/-- Modelled from the spec: the TransformationPipeline contract of section
4.2 — "Transformations are applied strictly in list order, each consuming the
previous result. With no transformations, it is the identity function."
Stated only to be compared with `apply_transformations` above. -/
def apply_transformations_spec (initial_relation : SelectStmt)
    (transformations : List (SelectStmt → SelectStmt)) : SelectStmt :=
  transformations.foldl (fun rel t => t rel) initial_relation

/-- `DBQuery`: base table, initial columns, transformations, optional name. -/
structure DBQuery where
  base_table : SATable
  initial_columns : List InitialColumn
  transformations : List (SelectStmt → SelectStmt)
  name : Option String

/-- `DBQuery.sa_relation`: parse the query into a relation — build the
initial relation, then run it through `_apply_transformations`. -/
def DBQuery.sa_relation (q : DBQuery) : Option SelectStmt :=
  (get_initial_relation q.base_table q.initial_columns).map
    (fun rel => apply_transformations rel q.transformations)

/-- Leading-segment test on character lists, used by `pyReplace`. -/
def isLeading : List Char → List Char → Bool
  | [], _ => true
  | _ :: _, [] => false
  | p :: ps, c :: cs => p == c && isLeading ps cs

/-- Core of Python `str.replace`: replace every non-overlapping occurrence of
`pat`, scanning left to right.  The `fuel` argument only makes the recursion
structural; every step consumes at least one character, so fuel equal to the
input length (as supplied by `pyReplace`) never runs out. -/
def replCore (pat rep : List Char) : Nat → List Char → List Char
  | _, [] => []
  | 0, s => s
  | fuel + 1, c :: rest =>
    if isLeading pat (c :: rest) then
      rep ++ replCore pat rep fuel (rest.drop (pat.length - 1))
    else
      c :: replCore pat rep fuel rest

/-- Python `template.replace(old, new)` on strings. -/
def pyReplace (s old new : String) : String :=
  String.mk (replCore old.data new.data s.data.length s.data)

def lbrace : Char := Char.ofNat 123

def rbrace : Char := Char.ofNat 125

/-- Scanner for `re.findall(r'\x7b(.*?)\x7d', template)`: each match is the
lazily-shortest run of characters between an opening and the next closing
brace; `cur` buffers the characters (in reverse) of a match in progress. -/
def scanPhs : Option (List Char) → List Char → List String
  | _, [] => []
  | none, c :: rest =>
    if c = lbrace then scanPhs (some []) rest else scanPhs none rest
  | some buf, c :: rest =>
    if c = rbrace then String.mk buf.reverse :: scanPhs none rest
    else scanPhs (some (c :: buf)) rest

/-- The placeholder ids of a preview template, in order of occurrence. -/
def pyFindall (s : String) : List String :=
  scanPhs none s.data

/-- The literal placeholder text for an id: `f'\x7b\x7b\x7bid\x7d\x7d\x7d'`
in the source, i.e. the id wrapped in braces. -/
def phOf (id : String) : String :=
  String.mk (lbrace :: id.data ++ [rbrace])

/-- `"___".join([f"\x7bp[0]\x7d__\x7bp[1]\x7d" for path in current_path])`:
the path-derived alias stem of the preview resolver. -/
def joinHops : List (String × String) → String
  | [] => ""
  | [p] => p.1 ++ "__" ++ p.2
  | p :: q :: rest => p.1 ++ "__" ++ p.2 ++ "___" ++ joinHops (q :: rest)

/-- Modelled from the spec: a metadata-collaborator column handle — an id, the
id of its owning table, and the `show_fk_preview` display flag.  Template
placeholders and column ids share one id space (`String`). -/
structure MColumn where
  id : String
  tableId : String
  show_fk_preview : Bool
deriving DecidableEq

/-- Modelled from the spec: a metadata-collaborator constraint — the id of
the table it is on, its type tag, its constrained columns and its referent
columns. -/
structure MConstraint where
  tableId : String
  ctype : String
  columns : List MColumn
  referent_columns : List MColumn
deriving DecidableEq

/-- Modelled from the spec: the metadata store read by the resolver — the
constraint listing (`Constraint.objects`), the per-table preview templates
(`table.settings.preview_settings.template`) and the column listing
(`Column.objects`). -/
structure PreviewEnv where
  constraints : List MConstraint
  templates : List (String × String)
  columns : List MColumn
deriving DecidableEq

/-- `ConstraintType.FOREIGN_KEY.value` of the constraints collaborator. -/
def foreignKeyValue : String := "foreignkey"

/-- One `preview_info` entry: the rendered template and the join path. -/
structure PreviewEntry where
  template : String
  path : List (String × String)
deriving DecidableEq

/-- One entry of the resolver's flat output column list: the dict
`\x7b'id': ..., 'alias': ..., 'jp_path': ...\x7d` built for a leaf column. -/
structure PreviewColumn where
  id : String
  alias_ : String
  jp_path : List (String × String)
deriving DecidableEq

/-- First-match association lookup, the model of Python `dict` reading. -/
def lookupStr {β : Type} : List (String × β) → String → Option β
  | [], _ => none
  | (k, v) :: rest, key => if k = key then some v else lookupStr rest key

/-- Python `dict` assignment `d[k] = v`: replace the value in place when the
key is present, append the pair otherwise. -/
def dictInsert {β : Type} (d : List (String × β)) (k : String) (v : β) :
    List (String × β) :=
  if d.any (fun kv => kv.1 == k) then
    d.map (fun kv => if kv.1 == k then (k, v) else kv)
  else d ++ [(k, v)]

/-- Default stand-in for `columns[0]` / `referent_columns[0]`; never reached
on the single-column foreign keys the source supports. -/
def dfltMColumn : MColumn := ⟨"", "", false⟩

def MConstraint.constrained_column (c : MConstraint) : MColumn :=
  c.columns.headD dfltMColumn

def MConstraint.referent_column (c : MConstraint) : MColumn :=
  c.referent_columns.headD dfltMColumn

/-- `_filter_preview_enabled_columns(fk_constraint)`: the
`show_fk_preview` display flag of the constrained column. -/
def filter_preview_enabled_columns (fk_constraint : MConstraint) : Bool :=
  fk_constraint.constrained_column.show_fk_preview

/-- The constraint-selection steps of `get_preview_info`: keep the foreign-key
constraints of the referrer table, narrow to preview-enabled constrained
columns when `fk_previews == 'auto'`, and narrow to `restrict_columns` when
that list is truthy (non-empty). -/
def selectFkConstraints (env : PreviewEnv) (fk_previews : String)
    (referrer_table_pk : String) (restrict_columns : List MColumn) :
    List MConstraint :=
  let table_constraints := env.constraints.filter (fun c => c.tableId == referrer_table_pk)
  let fk_constraints := table_constraints.filter (fun c => c.ctype == foreignKeyValue)
  let fk_constraints :=
    if fk_previews == "auto" then
      fk_constraints.filter filter_preview_enabled_columns
    else fk_constraints
  if restrict_columns.isEmpty then fk_constraints
  else fk_constraints.filter (fun c => restrict_columns.contains c.constrained_column)

/-- The inner placeholder loop of `get_constrained_columns_by_referent_table`:
for every extracted placeholder id not resolved by the recursion, build the
path-derived alias, rewrite the placeholder in the template to that alias,
and append the column descriptor. -/
def processLeaves (referent_preview_info : List (String × PreviewEntry))
    (path_stem : String) (current_path : List (String × String)) :
    List String → String → List PreviewColumn → String × List PreviewColumn
  | [], template, cols => (template, cols)
  | id :: rest, template, cols =>
    if (lookupStr referent_preview_info id).isSome then
      processLeaves referent_preview_info path_stem current_path rest template cols
    else
      let column_alias_name := path_stem ++ "__col__" ++ id
      processLeaves referent_preview_info path_stem current_path rest
        (pyReplace template (phOf id) (phOf column_alias_name))
        (cols ++ [⟨id, column_alias_name, current_path⟩])

/-- The referent table's preview template for one constraint:
`referent_column.table.settings.preview_settings.template`. -/
def constraintTemplate (env : PreviewEnv) (c : MConstraint) : String :=
  (lookupStr env.templates c.referent_column.tableId).getD ""

/-- `preview_data_column_ids`: the placeholder ids extracted from the
referent table's template. -/
def constraintDataColumnIds (env : PreviewEnv) (c : MConstraint) : List String :=
  pyFindall (constraintTemplate env c)

/-- `preview_data_columns = Column.objects.filter(id__in=...)`. -/
def constraintDataColumns (env : PreviewEnv) (c : MConstraint) : List MColumn :=
  env.columns.filter (fun col => (constraintDataColumnIds env c).contains col.id)

/-- `current_path = previous_path + [[constrained_column.id, referent_column.id]]`. -/
def extendPath (previous_path : List (String × String)) (c : MConstraint) :
    List (String × String) :=
  previous_path ++ [(c.constrained_column.id, c.referent_column.id)]

/-- The merge loop over `referent_preview_info.items()`: substitute every
recursion-rendered sub-template in place of its placeholder. -/
def mergeResolved (referent_preview_info : List (String × PreviewEntry))
    (preview_template : String) : String :=
  referent_preview_info.foldl
    (fun t kv => pyReplace t (phOf kv.1) kv.2.template) preview_template

/-- The whole per-constraint body up to and including the placeholder loop:
recurse into the referent table (through `recur`), concatenate the recursion's
column list onto the accumulated one, merge resolved sub-templates, then run
the leaf-placeholder loop.  Returns the final template and column list. -/
def constraintLeaves (env : PreviewEnv)
    (recur : String → List MColumn → List (String × String) → List PreviewColumn →
      List (String × PreviewEntry) × List PreviewColumn)
    (fk_constraint : MConstraint) (previous_path : List (String × String))
    (exising_columns accCols : List PreviewColumn) : String × List PreviewColumn :=
  let current_path := extendPath previous_path fk_constraint
  let res := recur fk_constraint.referent_column.tableId
    (constraintDataColumns env fk_constraint) current_path exising_columns
  processLeaves res.1 (joinHops current_path) current_path
    (constraintDataColumnIds env fk_constraint)
    (mergeResolved res.1 (constraintTemplate env fk_constraint))
    (accCols ++ res.2)

/-- The per-constraint loop of `get_constrained_columns_by_referent_table`.
`recur` stands for the mutually recursive call into `get_preview_info` (with
`fk_previews` and the environment already fixed); `exising_columns` is the
list the source passes unchanged into every recursive call, while `accCols`
is the accumulating `preview_columns` variable and `accInfo` the accumulating
`preview_info` dict, extended with `\x7btemplate, path\x7d` per constraint. -/
def get_constrained_columns_go (env : PreviewEnv)
    (recur : String → List MColumn → List (String × String) → List PreviewColumn →
      List (String × PreviewEntry) × List PreviewColumn) :
    List MConstraint → List (String × String) → List PreviewColumn →
    List (String × PreviewEntry) → List PreviewColumn →
    List (String × PreviewEntry) × List PreviewColumn
  | [], _, _, accInfo, accCols => (accInfo, accCols)
  | fk_constraint :: rest, previous_path, exising_columns, accInfo, accCols =>
    let leaves := constraintLeaves env recur fk_constraint previous_path
      exising_columns accCols
    get_constrained_columns_go env recur rest previous_path exising_columns
      (dictInsert accInfo fk_constraint.constrained_column.id
        ⟨leaves.1, extendPath previous_path fk_constraint⟩)
      leaves.2

/-- `get_constrained_columns_by_referent_table(fk_previews, fk_constraints,
previous_path, exising_columns)`: start with `preview_info = \x7b\x7d` and
`preview_columns = exising_columns`, then run the per-constraint loop. -/
def get_constrained_columns_by_referent_table (env : PreviewEnv)
    (recur : String → List MColumn → List (String × String) → List PreviewColumn →
      List (String × PreviewEntry) × List PreviewColumn)
    (fk_constraints : List MConstraint) (previous_path : List (String × String))
    (exising_columns : List PreviewColumn) :
    List (String × PreviewEntry) × List PreviewColumn :=
  get_constrained_columns_go env recur fk_constraints previous_path exising_columns
    [] exising_columns

/-- `get_preview_info(fk_previews, referrer_table_pk, restrict_columns, path,
existing_columns)`: select the relevant foreign-key constraints and resolve
them.  `fuel` bounds the recursion depth; the source has no such bound (its
recursion is limited only by the foreign-key graph), so every claim is read
at a fuel larger than the depth of the graph involved. -/
def get_preview_info (env : PreviewEnv) :
    Nat → String → String → List MColumn → List (String × String) →
    List PreviewColumn → List (String × PreviewEntry) × List PreviewColumn
  | 0, _, _, _, _, existing_columns => ([], existing_columns)
  | fuel + 1, fk_previews, referrer_table_pk, restrict_columns, path, existing_columns =>
    get_constrained_columns_by_referent_table env
      (fun pk restrict p cols => get_preview_info env fuel fk_previews pk restrict p cols)
      (selectFkConstraints env fk_previews referrer_table_pk restrict_columns)
      path existing_columns

/-! Concrete fixtures used by witnesses and counterexamples. -/

def tOrders : SATable := ⟨"orders"⟩

def tCustomers : SATable := ⟨"customers"⟩

def cCustId : SAColumn := ⟨tOrders, "customer_id"⟩

def cOrdId : SAColumn := ⟨tOrders, "id"⟩

def cCusId : SAColumn := ⟨tCustomers, "id"⟩

def cCusName : SAColumn := ⟨tCustomers, "name"⟩

def jpOC : JoinParams := ⟨cCustId, cCusId⟩

/-- Two initial columns reaching the same remote table via the same path. -/
def icJoinA : InitialColumn := ⟨"a1", cCusName, some [jpOC]⟩

def icJoinB : InitialColumn := ⟨"a2", cCusName, some [jpOC]⟩

def icBase1 : InitialColumn := ⟨"b1", cCustId, none⟩

def icBase2 : InitialColumn := ⟨"b2", cOrdId, none⟩

/-- The relation built from `[icJoinA, icJoinB]`: each join column gets its
own alias id of the customers table. -/
def stmtAB : SelectStmt :=
  ⟨[⟨"a1", ColumnRef.aliased 0 "name"⟩, ⟨"a2", ColumnRef.aliased 1 "name"⟩],
   FromClause.joined (FromClause.table tOrders) (FromClause.tableAlias tCustomers 1)
     (ColumnRef.plain cCustId) (ColumnRef.aliased 1 "id")⟩

def stubRel : SelectStmt := ⟨[], FromClause.table ⟨"b"⟩⟩

/-- A concrete non-identity transformation: append one output column. -/
def stubTransform : SelectStmt → SelectStmt :=
  fun s => ⟨s.columns ++ [⟨"extra", ColumnRef.plain ⟨⟨"t"⟩, "c"⟩⟩], s.select_from⟩

def tBase6 : SATable := ⟨"base"⟩

/-- First hop of a malformed path: its left table `A` is not the base table. -/
def jpBad1 : JoinParams := ⟨⟨⟨"A"⟩, "x"⟩, ⟨⟨"B"⟩, "y"⟩⟩

/-- Second hop of a malformed path: its left table `C` is not the first
hop's right table `B` (non-contiguous). -/
def jpBad2 : JoinParams := ⟨⟨⟨"C"⟩, "u"⟩, ⟨⟨"D"⟩, "v"⟩⟩

def cBadD : SAColumn := ⟨⟨"D"⟩, "v"⟩

def icBad : InitialColumn := ⟨"a", cBadD, some [jpBad1, jpBad2]⟩

/-- Preview fixtures: tables `S`, `T`, `U`; column `30` of `S` references
`T`'s column `1`; column `10` of `T` references `U`'s column `2`; column
`20` is a leaf data column of `U`. -/
def colX : MColumn := ⟨"10", "T", true⟩

def colY : MColumn := ⟨"20", "U", true⟩

def colS : MColumn := ⟨"30", "S", true⟩

def colTpk : MColumn := ⟨"1", "T", true⟩

def colUpk : MColumn := ⟨"2", "U", true⟩

def conS : MConstraint := ⟨"S", "foreignkey", [colS], [colTpk]⟩

def conT : MConstraint := ⟨"T", "foreignkey", [colX], [colUpk]⟩

/-- `T`'s preview template is the single placeholder for column `10`. -/
def tTemplate : String := "\x7b10\x7d"

/-- `U`'s preview template is the single placeholder for column `20`. -/
def uTemplate : String := "\x7b20\x7d"

def env4 : PreviewEnv :=
  ⟨[conS, conT],
   [("S", ""), ("T", tTemplate), ("U", uTemplate)],
   [colX, colY, colS, colTpk, colUpk]⟩

/-- The descriptor the resolver builds for leaf column `20` reached from `T`. -/
def d20 : PreviewColumn := ⟨"20", "10__2__col__20", [("10", "2")]⟩

/-- An arbitrary caller-supplied descriptor unrelated to the environment. -/
def e99 : PreviewColumn := ⟨"99", "zz", []⟩

/-- Auto-mode fixtures: two foreign keys on table `T`, one with the
`show_fk_preview` flag set, one without. -/
def colFlagged : MColumn := ⟨"40", "T", true⟩

def colUnflagged : MColumn := ⟨"41", "T", false⟩

def conFlagged : MConstraint := ⟨"T", "foreignkey", [colFlagged], [colUpk]⟩

def conUnflagged : MConstraint := ⟨"T", "foreignkey", [colUnflagged], [colUpk]⟩

def env8 : PreviewEnv :=
  ⟨[conFlagged, conUnflagged], [("U", "")], []⟩

/-- Output columns that reference a table alias, projected to the alias id. -/
def aliasIdsOf (cols : List LabeledColumn) : List Nat :=
  cols.filterMap (fun lc =>
    match lc.expr with
    | ColumnRef.aliased a _ => some a
    | _ => none)

/-! Helper lemmas. -/

theorem processLeaves_cols_extends (refInfo : List (String × PreviewEntry))
    (stem : String) (cur : List (String × String)) :
    ∀ (ids : List String) (t : String) (cols : List PreviewColumn),
    ∃ tl, (processLeaves refInfo stem cur ids t cols).2 = cols ++ tl := by
  intro ids
  induction ids with
  | nil => intro t cols; exact ⟨[], by simp [processLeaves]⟩
  | cons i rest ih =>
    intro t cols
    by_cases hi : (lookupStr refInfo i).isSome
    · simpa [processLeaves, hi] using ih t cols
    · simp only [processLeaves, hi, Bool.false_eq_true, if_neg, ite_false]
      obtain ⟨tl, htl⟩ := ih
        (pyReplace t (phOf i) (phOf (stem ++ "__col__" ++ i)))
        (cols ++ [⟨i, stem ++ "__col__" ++ i, cur⟩])
      exact ⟨⟨i, stem ++ "__col__" ++ i, cur⟩ :: tl, by
        rw [htl, List.append_assoc]; rfl⟩

theorem constraintLeaves_cols_extends (env : PreviewEnv)
    (recur : String → List MColumn → List (String × String) → List PreviewColumn →
      List (String × PreviewEntry) × List PreviewColumn)
    (c : MConstraint) (pp : List (String × String))
    (ex accCols : List PreviewColumn) :
    ∃ tl, (constraintLeaves env recur c pp ex accCols).2 = accCols ++ tl := by
  unfold constraintLeaves
  obtain ⟨tl, htl⟩ := processLeaves_cols_extends
    (recur c.referent_column.tableId (constraintDataColumns env c) (extendPath pp c) ex).1
    (joinHops (extendPath pp c)) (extendPath pp c)
    (constraintDataColumnIds env c)
    (mergeResolved
      (recur c.referent_column.tableId (constraintDataColumns env c) (extendPath pp c) ex).1
      (constraintTemplate env c))
    (accCols ++
      (recur c.referent_column.tableId (constraintDataColumns env c) (extendPath pp c) ex).2)
  exact ⟨_, by rw [htl, List.append_assoc]⟩

theorem go_cols_extends (env : PreviewEnv)
    (recur : String → List MColumn → List (String × String) → List PreviewColumn →
      List (String × PreviewEntry) × List PreviewColumn) :
    ∀ (cs : List MConstraint) (pp : List (String × String))
      (ex : List PreviewColumn) (accInfo : List (String × PreviewEntry))
      (accCols : List PreviewColumn),
    ∃ tl, (get_constrained_columns_go env recur cs pp ex accInfo accCols).2
      = accCols ++ tl := by
  intro cs
  induction cs with
  | nil => intro pp ex accInfo accCols; exact ⟨[], by simp [get_constrained_columns_go]⟩
  | cons c rest ih =>
    intro pp ex accInfo accCols
    simp only [get_constrained_columns_go]
    obtain ⟨tl1, h1⟩ := ih pp ex
      (dictInsert accInfo c.constrained_column.id
        ⟨(constraintLeaves env recur c pp ex accCols).1, extendPath pp c⟩)
      (constraintLeaves env recur c pp ex accCols).2
    obtain ⟨tl2, h2⟩ := constraintLeaves_cols_extends env recur c pp ex accCols
    exact ⟨tl2 ++ tl1, by rw [h1, h2, List.append_assoc]⟩

/-- C9: for every relation and every transformations argument, including a
non-empty list, `_apply_transformations` returns the input relation
unchanged, so the transformations supplied to a DBQuery are never applied to
the built relation: `sa_relation` is the initial relation itself. -/
theorem C9_transformations_never_applied :
    (∀ (initial_relation : SelectStmt) (ts : List (SelectStmt → SelectStmt)),
      apply_transformations initial_relation ts = initial_relation)
    ∧ (∀ q : DBQuery, q.sa_relation = get_initial_relation q.base_table q.initial_columns) := by
  constructor
  · intro r ts; rfl
  · intro q
    unfold DBQuery.sa_relation
    cases get_initial_relation q.base_table q.initial_columns <;> rfl

/-- C3: the transformation pipeline is claimed to apply the transformations
in list order, but `_apply_transformations` returns the input relation
unchanged for every transformations list; at the concrete non-identity
transformation `stubTransform` the code's result differs from the ordered
sequential application the claim (and spec section 4.2) requires. -/
theorem C3_pipeline_stub_diverges :
    apply_transformations stubRel [stubTransform] = stubRel
    ∧ apply_transformations_spec stubRel [stubTransform] ≠ stubRel := by
  exact ⟨rfl, by decide⟩

/-- C6 counterexample: a join path whose first hop does not start at the
base table and whose hops are non-contiguous passes `InitialColumn.__init__`
without a validation error, and building the relation from it also completes
without error — no fail-fast validation of the path exists. -/
theorem C6_counterexample :
    InitialColumn.init "a" cBadD (some [jpBad1, jpBad2]) = Except.ok icBad
    ∧ jpBad1.right_table ≠ jpBad2.left_table
    ∧ jpBad1.left_table ≠ tBase6
    ∧ (get_initial_relation tBase6 [icBad]).isSome = true := by
  refine ⟨?_, by decide, by decide, by decide⟩
  rfl

/-- C6 (amended): construction succeeds exactly when the alias strips to a
non-empty string — the only value-level validation performed; the join
path's shape is never checked. -/
theorem C6_amended_validation_only_alias :
    ∀ (a : String) (c : SAColumn) (p : Option (List JoinParams)),
      (∃ ic, InitialColumn.init a c p = Except.ok ic) ↔ pyStrip a ≠ "" := by
  intro a c p
  unfold InitialColumn.init
  by_cases h : pyStrip a = "" <;> simp [h]

/-- C4: nested preview flattening.  Resolving previews on `T` (template
`\x7b10\x7d`, where column `10` is a foreign key into `U` with template
`\x7b20\x7d`) yields for the constrained column `10` a final template equal
to `U`'s template with `20`'s placeholder rewritten to its path-prefixed
alias; resolving on `S` (which references `T`) flattens the nested preview:
the final template for `30` is again `U`'s template for `20`, rewritten to
the two-hop path-prefixed alias, substituted in place of the `\x7b10\x7d`
placeholder. -/
theorem C4_nested_preview_flattening :
    (get_preview_info env4 3 "manual" "T" [] [] []).1
      = [("10", ⟨pyReplace uTemplate (phOf "20")
          (phOf (joinHops [("10", "2")] ++ "__col__" ++ "20")), [("10", "2")]⟩)]
    ∧ (get_preview_info env4 3 "manual" "S" [] [] []).1
      = [("30", ⟨pyReplace uTemplate (phOf "20")
          (phOf (joinHops [("30", "1"), ("10", "2")] ++ "__col__" ++ "20")), [("30", "1")]⟩)] := by
  exact ⟨by decide, by decide⟩

/-- C5 counterexample: with `already_collected` holding exactly the
descriptor `d20` (id `20`, path `[("10","2")]`) that resolving `T` produces,
the resolver appends an equivalent descriptor anyway — the returned column
list holds `d20` three times, so it does contain duplicates of it. -/
theorem C5_counterexample :
    (get_preview_info env4 3 "manual" "T" [] [] [d20]).2 = [d20, d20, d20] := by
  decide

/-- C5 (amended): no dedup against the already-collected list exists: for any
already-collected list `E`, resolving `T` returns `E`, then `E` again (the
recursion's result re-includes it), then the leaf descriptor — appended
unconditionally (the only dedup is against recursion-resolved placeholder
ids). -/
theorem C5_amended_no_dedup :
    ∀ E : List PreviewColumn,
      (get_preview_info env4 3 "manual" "T" [] [] E).2 = (E ++ E) ++ [d20] := by
  intro E; rfl

/-- C10 counterexample: the resolver does not only append *new* descriptors:
with caller-supplied list `[e99]`, the part of the output after that prefix
contains `e99` itself again (output `[e99, e99, d20]`). -/
theorem C10_counterexample :
    (get_preview_info env4 3 "manual" "T" [] [] [e99]).2 = [e99, e99, d20]
    ∧ e99 ∈ ((get_preview_info env4 3 "manual" "T" [] [] [e99]).2.drop 1) := by
  exact ⟨by decide, by decide⟩

/-- C10 (amended): the returned flat column list always begins with the
caller-supplied existing-columns list as a prefix, in its original order —
the resolver only ever appends to it (though what it appends may duplicate
existing descriptors, see the counterexample). -/
theorem C10_amended_output_extends (env : PreviewEnv) (fuel : Nat)
    (fk_previews pk : String) (restrict : List MColumn)
    (path : List (String × String)) (E : List PreviewColumn) :
    ∃ tl, (get_preview_info env fuel fk_previews pk restrict path E).2 = E ++ tl := by
  cases fuel with
  | zero => exact ⟨[], by simp [get_preview_info]⟩
  | succ n =>
    unfold get_preview_info get_constrained_columns_by_referent_table
    exact go_cols_extends env _ _ path E [] E

theorem go_all_base_columns (base : SATable) :
    ∀ (l : List InitialColumn) (cols : List LabeledColumn) (ctr : Nat),
    (∀ ic ∈ l, ic.is_base_column = true) →
    get_initial_relation_go base l none cols ctr
      = some ⟨cols ++ l.map (fun ic => ⟨ic.alias_, ColumnRef.plain ic.column⟩),
              FromClause.table base⟩ := by
  intro l
  induction l with
  | nil => intro cols ctr h; simp [get_initial_relation_go, Option.getD]
  | cons ic rest ih =>
    intro cols ctr h
    have hic : ic.is_base_column = true := h ic (List.mem_cons_self ic rest)
    have hrest : ∀ jc ∈ rest, jc.is_base_column = true :=
      fun jc hj => h jc (List.mem_cons_of_mem ic hj)
    simp only [get_initial_relation_go, process_initial_column, hic, if_true]
    have hstep := ih
      (cols ++ [({ label := ic.alias_, expr := ColumnRef.plain ic.column } : LabeledColumn)])
      ctr hrest
    rw [hstep]
    simp

/-- C1: for a list of InitialColumns that are all base columns (no join
path), the built relation selects exactly the requested columns, each
labeled with its InitialColumn's alias, in input order, directly from the
base table. -/
theorem C1_base_columns_exact_output (base : SATable) (l : List InitialColumn)
    (h : ∀ ic ∈ l, ic.is_base_column = true) :
    get_initial_relation base l
      = some ⟨l.map (fun ic => ⟨ic.alias_, ColumnRef.plain ic.column⟩),
              FromClause.table base⟩ := by
  have hgo := go_all_base_columns base l [] 0 h
  simpa [get_initial_relation] using hgo

/-- C1 witness: two concrete base columns build the two-column relation over
the base table, labels in input order. -/
theorem C1_witness :
    (∀ ic ∈ [icBase1, icBase2], ic.is_base_column = true)
    ∧ get_initial_relation tOrders [icBase1, icBase2]
      = some ⟨[⟨"b1", ColumnRef.plain cCustId⟩, ⟨"b2", ColumnRef.plain cOrdId⟩],
              FromClause.table tOrders⟩ :=
  ⟨by decide, C1_base_columns_exact_output tOrders [icBase1, icBase2] (by decide)⟩

theorem aliasIdsOf_append (xs ys : List LabeledColumn) :
    aliasIdsOf (xs ++ ys) = aliasIdsOf xs ++ aliasIdsOf ys := by
  simp [aliasIdsOf, List.filterMap_append]

theorem aliasIdsOf_plain_singleton (s : String) (c : SAColumn) :
    aliasIdsOf [⟨s, ColumnRef.plain c⟩] = [] := rfl

theorem aliasIdsOf_aliased_singleton (s : String) (a : Nat) (n : String) :
    aliasIdsOf [⟨s, ColumnRef.aliased a n⟩] = [a] := rfl

theorem nest_a_join_fresh (nj : Option FromClause) (ic : InitialColumn) (ctr : Nat)
    (out : FromClause × ColumnRef × Nat) (h : nest_a_join nj ic ctr = some out) :
    out.2.1 = ColumnRef.aliased ctr ic.column.name ∧ out.2.2 = ctr + 1 := by
  cases hp : ic.jp_path with
  | none => simp [nest_a_join, hp] at h
  | some jps =>
    cases hr : jps.reverse with
    | nil => simp [nest_a_join, hp, hr] at h
    | cons jpLast restRev =>
      simp only [nest_a_join, hp, hr, access_column_on_aliased_relation] at h
      injection h with h'
      rw [← h']
      exact ⟨rfl, rfl⟩

theorem go_aliasIds_nodup (base : SATable) :
    ∀ (l : List InitialColumn) (nj : Option FromClause) (cols : List LabeledColumn)
      (ctr : Nat) (stmt : SelectStmt),
    (∀ a ∈ aliasIdsOf cols, a < ctr) → (aliasIdsOf cols).Nodup →
    get_initial_relation_go base l nj cols ctr = some stmt →
    (aliasIdsOf stmt.columns).Nodup := by
  intro l
  induction l with
  | nil =>
    intro nj cols ctr stmt hb hn h
    simp only [get_initial_relation_go] at h
    injection h with h'
    rw [← h']
    exact hn
  | cons ic rest ih =>
    intro nj cols ctr stmt hb hn h
    by_cases hbase : ic.is_base_column = true
    · simp only [get_initial_relation_go, process_initial_column, hbase, if_true] at h
      refine ih nj _ ctr stmt ?_ ?_ h
      · intro a ha
        rw [aliasIdsOf_append, aliasIdsOf_plain_singleton, List.append_nil] at ha
        exact hb a ha
      · rw [aliasIdsOf_append, aliasIdsOf_plain_singleton, List.append_nil]
        exact hn
    · have hbf : ic.is_base_column = false := Bool.not_eq_true _ ▸ eq_false_of_ne_true hbase
      cases hn2 : nest_a_join nj ic ctr with
      | none =>
        simp [get_initial_relation_go, process_initial_column, hbf, hn2] at h
      | some out =>
        obtain ⟨fc, cr, c2⟩ := out
        obtain ⟨hcr, hc⟩ := nest_a_join_fresh nj ic ctr ⟨fc, cr, c2⟩ hn2
        simp only at hcr hc
        subst hcr
        subst hc
        simp only [get_initial_relation_go, process_initial_column, hbf, hn2,
          Bool.false_eq_true, if_false, ite_false] at h
        refine ih (some fc) _ (ctr + 1) stmt ?_ ?_ h
        · intro a ha
          rw [aliasIdsOf_append, aliasIdsOf_aliased_singleton, List.mem_append] at ha
          rcases ha with ha | ha
          · exact Nat.lt_succ_of_lt (hb a ha)
          · rw [List.mem_singleton] at ha
            rw [ha]
            exact Nat.lt_succ_self ctr
        · rw [aliasIdsOf_append, aliasIdsOf_aliased_singleton]
          rw [List.nodup_append]
          refine ⟨hn, List.nodup_singleton ctr, ?_⟩
          intro a ha ha2
          rw [List.mem_singleton] at ha2
          exact absurd (hb a ha) (by rw [ha2]; exact Nat.lt_irrefl ctr)

/-- C2: every join-resolved InitialColumn gives the rightmost table of its
path a fresh alias — `_nest_a_join` returns a reference to the freshly
allocated alias id and bumps the counter — and consequently, whenever a
relation is built, the alias ids referenced by its output columns are
pairwise distinct, so two InitialColumns reaching the same remote table
(via different paths or the same path reused) never collide in an
ambiguous column reference. -/
theorem C2_fresh_alias_no_collision :
    (∀ (nj : Option FromClause) (ic : InitialColumn) (ctr : Nat)
       (out : FromClause × ColumnRef × Nat), nest_a_join nj ic ctr = some out →
       out.2.1 = ColumnRef.aliased ctr ic.column.name ∧ out.2.2 = ctr + 1)
    ∧ (∀ (base : SATable) (l : List InitialColumn) (stmt : SelectStmt),
       get_initial_relation base l = some stmt → (aliasIdsOf stmt.columns).Nodup) := by
  constructor
  · exact nest_a_join_fresh
  · intro base l stmt h
    exact go_aliasIds_nodup base l none [] 0 stmt (by intro a ha; cases ha)
      List.nodup_nil h

/-- C2 witness: two InitialColumns reusing the same join path to the same
remote table build successfully, and the built output columns reference the
distinct alias ids 0 and 1. -/
theorem C2_witness :
    get_initial_relation tOrders [icJoinA, icJoinB] = some stmtAB
    ∧ (aliasIdsOf stmtAB.columns).Nodup :=
  ⟨by decide, C2_fresh_alias_no_collision.2 tOrders [icJoinA, icJoinB] stmtAB (by decide)⟩

/-- C7: for a leaf placeholder id (one the recursion did not resolve), the
placeholder loop computes the alias by joining all hops of the current path
(three-underscore separated, each hop `left__right`) and suffixing
`__col__` and the column id, rewrites the placeholder in the template to
that alias, appends the descriptor `\x7bid, alias, jp_path =
current_path\x7d` to the column list, and that descriptor survives into the
loop's final output list. -/
theorem C7_leaf_alias_descriptor (refInfo : List (String × PreviewEntry))
    (cur : List (String × String)) (id : String) (rest : List String)
    (t : String) (cols : List PreviewColumn)
    (hleaf : lookupStr refInfo id = none) :
    processLeaves refInfo (joinHops cur) cur (id :: rest) t cols
      = processLeaves refInfo (joinHops cur) cur rest
          (pyReplace t (phOf id) (phOf (joinHops cur ++ "__col__" ++ id)))
          (cols ++ [⟨id, joinHops cur ++ "__col__" ++ id, cur⟩])
    ∧ (⟨id, joinHops cur ++ "__col__" ++ id, cur⟩ : PreviewColumn)
        ∈ (processLeaves refInfo (joinHops cur) cur (id :: rest) t cols).2 := by
  have hstep : processLeaves refInfo (joinHops cur) cur (id :: rest) t cols
      = processLeaves refInfo (joinHops cur) cur rest
          (pyReplace t (phOf id) (phOf (joinHops cur ++ "__col__" ++ id)))
          (cols ++ [⟨id, joinHops cur ++ "__col__" ++ id, cur⟩]) := by
    simp [processLeaves, hleaf]
  refine ⟨hstep, ?_⟩
  rw [hstep]
  obtain ⟨tl, htl⟩ := processLeaves_cols_extends refInfo (joinHops cur) cur rest
    (pyReplace t (phOf id) (phOf (joinHops cur ++ "__col__" ++ id)))
    (cols ++ [⟨id, joinHops cur ++ "__col__" ++ id, cur⟩])
  rw [htl]
  simp

/-- C7 witness: for the concrete leaf id `20` on path `[("10","2")]` with
no recursion-resolved placeholders, the descriptor with alias
`10__2__col__20` is appended and present in the output. -/
theorem C7_witness :
    lookupStr ([] : List (String × PreviewEntry)) "20" = none
    ∧ (⟨"20", joinHops [("10", "2")] ++ "__col__" ++ "20", [("10", "2")]⟩ : PreviewColumn)
        ∈ (processLeaves [] (joinHops [("10", "2")]) [("10", "2")] ["20"] uTemplate []).2 :=
  ⟨rfl, (C7_leaf_alias_descriptor [] [("10", "2")] "20" [] uTemplate [] rfl).2⟩

theorem dictInsert_keys_sub {β : Type} (d : List (String × β)) (k : String) (v : β)
    (a : String) (h : a ∈ (dictInsert d k v).map Prod.fst) :
    a ∈ d.map Prod.fst ∨ a = k := by
  unfold dictInsert at h
  by_cases hd : d.any (fun kv => kv.1 == k)
  · rw [if_pos hd] at h
    rw [List.map_map, List.mem_map] at h
    obtain ⟨kv, hkv, ha⟩ := h
    by_cases hk : kv.1 == k
    · left
      simp only [Function.comp, hk, if_pos, ite_true] at ha
      rw [List.mem_map]
      exact ⟨kv, hkv, by rw [← ha]; exact beq_iff_eq.mp hk⟩
    · left
      simp only [Function.comp, hk, Bool.false_eq_true, if_neg, ite_false] at ha
      rw [List.mem_map]
      exact ⟨kv, hkv, ha⟩
  · rw [if_neg hd, List.map_append, List.mem_append] at h
    rcases h with h | h
    · exact Or.inl h
    · right
      simpa using h

theorem go_info_keys (env : PreviewEnv)
    (recur : String → List MColumn → List (String × String) → List PreviewColumn →
      List (String × PreviewEntry) × List PreviewColumn) :
    ∀ (cs : List MConstraint) (pp : List (String × String))
      (ex : List PreviewColumn) (accInfo : List (String × PreviewEntry))
      (accCols : List PreviewColumn) (a : String),
    a ∈ ((get_constrained_columns_go env recur cs pp ex accInfo accCols).1.map Prod.fst) →
    a ∈ accInfo.map Prod.fst ∨ ∃ c ∈ cs, c.constrained_column.id = a := by
  intro cs
  induction cs with
  | nil =>
    intro pp ex accInfo accCols a h
    simp only [get_constrained_columns_go] at h
    exact Or.inl h
  | cons c rest ih =>
    intro pp ex accInfo accCols a h
    simp only [get_constrained_columns_go] at h
    have := ih pp ex
      (dictInsert accInfo c.constrained_column.id
        ⟨(constraintLeaves env recur c pp ex accCols).1, extendPath pp c⟩)
      (constraintLeaves env recur c pp ex accCols).2 a h
    rcases this with hin | ⟨c2, hc2, hid⟩
    · rcases dictInsert_keys_sub accInfo c.constrained_column.id
        ⟨(constraintLeaves env recur c pp ex accCols).1, extendPath pp c⟩ a hin with h1 | h1
      · exact Or.inl h1
      · exact Or.inr ⟨c, List.mem_cons_self c rest, h1.symm⟩
    · exact Or.inr ⟨c2, List.mem_cons_of_mem c hc2, hid⟩

theorem selectFk_auto_mem (env : PreviewEnv) (pk : String)
    (restrict : List MColumn) (c : MConstraint)
    (h : c ∈ selectFkConstraints env "auto" pk restrict) :
    c ∈ env.constraints ∧ c.tableId = pk ∧ c.ctype = foreignKeyValue
      ∧ c.constrained_column.show_fk_preview = true := by
  unfold selectFkConstraints at h
  have hauto : (("auto" : String) == "auto") = true := by decide
  rw [hauto] at h
  simp only [if_pos, ite_true] at h
  have hmem : c ∈ List.filter filter_preview_enabled_columns
      (List.filter (fun d : MConstraint => d.ctype == foreignKeyValue)
        (List.filter (fun d : MConstraint => d.tableId == pk) env.constraints)) := by
    by_cases hr : restrict.isEmpty
    · rw [if_pos hr] at h; exact h
    · rw [if_neg hr] at h
      exact (List.mem_filter.mp h).1
  rw [List.mem_filter] at hmem
  obtain ⟨hmem2, hflag⟩ := hmem
  rw [List.mem_filter] at hmem2
  obtain ⟨hmem3, hfk⟩ := hmem2
  rw [List.mem_filter] at hmem3
  obtain ⟨hmem4, htid⟩ := hmem3
  exact ⟨hmem4, beq_iff_eq.mp htid, beq_iff_eq.mp hfk, hflag⟩

/-- C8: resolving previews in `auto` mode surfaces only flagged foreign
keys: every constrained-column id appearing as a key of the returned
`preview_info` comes from a foreign-key constraint of the referrer table
whose constrained column has `show_fk_preview = true`; constraints whose
constrained column lacks the flag never contribute a key. -/
theorem C8_auto_mode_only_flagged (env : PreviewEnv) (fuel : Nat) (pk : String)
    (restrict : List MColumn) (path : List (String × String))
    (E : List PreviewColumn) (a : String)
    (h : a ∈ ((get_preview_info env fuel "auto" pk restrict path E).1.map Prod.fst)) :
    ∃ c ∈ env.constraints, c.tableId = pk ∧ c.ctype = foreignKeyValue
      ∧ c.constrained_column.show_fk_preview = true ∧ c.constrained_column.id = a := by
  cases fuel with
  | zero => simp [get_preview_info] at h
  | succ n =>
    unfold get_preview_info get_constrained_columns_by_referent_table at h
    rcases go_info_keys env _ (selectFkConstraints env "auto" pk restrict)
      path E [] E a h with hin | ⟨c, hc, hid⟩
    · simp at hin
    · obtain ⟨h1, h2, h3, h4⟩ := selectFk_auto_mem env pk restrict c hc
      exact ⟨c, h1, h2, h3, h4, hid⟩

/-- C8 witness: in the two-constraint environment `env8` (one flagged, one
not), the auto-mode result has the key `40`, and it comes from a flagged
foreign-key constraint of `T`. -/
theorem C8_witness :
    ("40" ∈ ((get_preview_info env8 2 "auto" "T" [] [] []).1.map Prod.fst))
    ∧ ∃ c ∈ env8.constraints, c.tableId = "T" ∧ c.ctype = foreignKeyValue
      ∧ c.constrained_column.show_fk_preview = true ∧ c.constrained_column.id = "40" :=
  ⟨by decide, C8_auto_mode_only_flagged env8 2 "T" [] [] [] "40" (by decide)⟩
